import Mathlib

/-!
Verification of the fetch/filter/dedupe pipeline of `s.py` (a keyword-driven
bilibili video search crawler).  The Python source is shallowly embedded:
JSON values decoded by `json` / `requests.Response.json()` become the `Json`
inductive; Python exceptions become `Except.error`; the stateful crawl loop
becomes explicit recursion over the list of per-page fetch outcomes.
-/

set_option linter.all false

/-- JSON values as decoded by Python's json module.  JSON numbers are
modelled as integers; the crawler only ever inspects integer-valued
numeric fields (`code`, `pubdate`, ids). -/
inductive Json where
  | null
  | bool (b : Bool)
  | num (n : Int)
  | str (s : String)
  | arr (elems : List Json)
  | obj (fields : List (String × Json))

/-- Python truthiness (`bool(x)`) for the modelled values. -/
def truthy : Json → Bool
  | .null => false
  | .bool b => b
  | .num n => !(n == 0)
  | .str s => !(s == "")
  | .arr xs => !xs.isEmpty
  | .obj kvs => !kvs.isEmpty

/-- Association lookup for object fields (Python dicts have unique keys). -/
def lookupField (k : String) : List (String × Json) → Option Json
  | [] => none
  | p :: rest => if p.1 = k then some p.2 else lookupField k rest

/-- `d.get(k)` on a Python dict: `none` models the returned `None` when the
key is absent, and `.get` on a non-dict raises (handled at each call site). -/
def Json.get : Json → String → Option Json
  | .obj kvs, k => lookupField k kvs
  | _, _ => none

/-- `x or y` in Python: `x` if truthy, else `y`. -/
def pyOr (a b : Json) : Json := if truthy a then a else b

def Json.isObj : Json → Bool
  | .obj _ => true
  | _ => false

def Json.isStr : Json → Bool
  | .str _ => true
  | _ => false

/-- Python `\s` whitespace characters (ASCII). -/
def pyWS (c : Char) : Bool :=
  c == ' ' || c == Char.ofNat 9 || c == Char.ofNat 10 || c == Char.ofNat 13 ||
  c == Char.ofNat 11 || c == Char.ofNat 12

/-- Python `str.strip()`. -/
def pyStrip (s : String) : String :=
  String.mk (((s.toList.dropWhile pyWS).reverse.dropWhile pyWS).reverse)

/-- ASCII single quote, written via its code point. -/
def squo : String := String.singleton (Char.ofNat 39)

def obrace : String := String.singleton (Char.ofNat 123)

def cbrace : String := String.singleton (Char.ofNat 125)

mutual

/-- Python `repr` of a decoded-JSON value (string escaping inside `repr` of
containers is simplified to plain quoting; no crawler field depends on it). -/
def pyRepr : Json → String
  | .null => "None"
  | .bool true => "True"
  | .bool false => "False"
  | .num n => toString n
  | .str s => squo ++ s ++ squo
  | .arr xs => "[" ++ pyReprList xs ++ "]"
  | .obj kvs => obrace ++ pyReprPairs kvs ++ cbrace

def pyReprList : List Json → String
  | [] => ""
  | [x] => pyRepr x
  | x :: y :: rest => pyRepr x ++ ", " ++ pyReprList (y :: rest)

def pyReprPairs : List (String × Json) → String
  | [] => ""
  | [(k, v)] => squo ++ k ++ squo ++ ": " ++ pyRepr v
  | (k, v) :: p :: rest => squo ++ k ++ squo ++ ": " ++ pyRepr v ++ ", " ++ pyReprPairs (p :: rest)

end

/-- Python `str(x)`: identity on strings, `repr`-rendering otherwise. -/
def pyStr : Json → String
  | .str s => s
  | v => pyRepr v

/-- One pass of `re.sub(r"<.*?>", "", text)`.  The first component, when
`some buf`, records (reversed) the characters seen since an unclosed `<`;
`.` does not match a newline, so a newline (or end of input) flushes the
pending `<` and its buffer literally.  A buffered run never contains `>`,
so no match of the regex can start inside a flushed buffer, which makes
this single pass equivalent to the regex substitution. -/
def stripTagsGo : Option (List Char) → List Char → List Char
  | none, [] => []
  | none, c :: rest =>
      if c = '<' then stripTagsGo (some []) rest else c :: stripTagsGo none rest
  | some buf, [] => '<' :: buf.reverse
  | some buf, c :: rest =>
      if c = '>' then stripTagsGo none rest
      else if c = Char.ofNat 10 then ('<' :: buf.reverse) ++ Char.ofNat 10 :: stripTagsGo none rest
      else stripTagsGo (some (c :: buf)) rest

def stripTags (l : List Char) : List Char := stripTagsGo none l

/-- `html.unescape`, modelled for the basic named/numeric entities; the
crawler's filters never depend on entity contents. -/
def unescapeGo : List Char → List Char
  | '&' :: 'a' :: 'm' :: 'p' :: ';' :: rest => '&' :: unescapeGo rest
  | '&' :: 'l' :: 't' :: ';' :: rest => '<' :: unescapeGo rest
  | '&' :: 'g' :: 't' :: ';' :: rest => '>' :: unescapeGo rest
  | '&' :: 'q' :: 'u' :: 'o' :: 't' :: ';' :: rest => '"' :: unescapeGo rest
  | '&' :: '#' :: '3' :: '9' :: ';' :: rest => Char.ofNat 39 :: unescapeGo rest
  | c :: rest => c :: unescapeGo rest
  | [] => []

/-- `clean_html` from `s.py`: non-strings become `""`; strings get HTML
tags stripped, entities unescaped, and surrounding whitespace removed. -/
def clean_html (t : Json) : String :=
  match t with
  | .str s => pyStrip (String.mk (unescapeGo (stripTags s.toList)))
  | _ => ""

/-- `to_datetime` from `s.py`.  `datetime.fromtimestamp(ts).strftime(...)`
depends on the local timezone, so the successful conversion is an abstract
parameter `fmt`; non-numeric arguments raise inside the `try` and yield
`""` (booleans are ints in Python). -/
def to_datetime (fmt : Int → String) (ts : Json) : String :=
  match ts with
  | .num n => fmt n
  | .bool b => fmt (if b then 1 else 0)
  | _ => ""

/-- Delimiters of `re.split(r"[,\s]+", s)`. -/
def tagDelim (c : Char) : Bool := c == ',' || pyWS c

/-- Maximal non-delimiter runs; `re.split` followed by dropping empty
pieces yields exactly these. -/
def splitTokensGo : List Char → List Char → List String
  | cur, [] => if cur.isEmpty then [] else [String.mk cur.reverse]
  | cur, c :: rest =>
      if tagDelim c then
        (if cur.isEmpty then splitTokensGo [] rest
         else String.mk cur.reverse :: splitTokensGo [] rest)
      else splitTokensGo (c :: cur) rest

def splitTokens (s : String) : List String := splitTokensGo [] s.toList

/-- `ensure_list_tags` from `s.py`. -/
def ensure_list_tags (tag_field : Json) : List String :=
  match tag_field with
  | .null => []
  | .arr xs => (xs.map (fun t => pyStrip (pyStr t))).filter (fun s => !(s == ""))
  | v =>
      let s := pyStrip (pyStr v)
      if s == "" then [] else splitTokens s

/-- `MATCH_HINTS` from `s.py`. -/
def MATCH_HINTS : List String :=
  ["比赛", "录像", "集锦", "全场", "决赛", "半决赛", "世锦赛", "奥运", "汤姆斯杯", "苏迪曼杯"]

/-- `needle` occurs as a prefix of `hay` (character lists). -/
def startsWithL : List Char → List Char → Bool
  | [], _ => true
  | _ :: _, [] => false
  | a :: as, b :: bs => a == b && startsWithL as bs

/-- Python's substring test `needle in hay` (character lists). -/
def containsL (needle : List Char) : List Char → Bool
  | [] => needle.isEmpty
  | b :: bs => startsWithL needle (b :: bs) || containsL needle bs

/-- Python's substring test `needle in hay` on strings. -/
def pyIn (needle hay : String) : Bool := containsL needle.toList hay.toList

/-- `looks_like_match` from `s.py`: a topic hint occurs in the title or in
the separator-free concatenation of the tags. -/
def looks_like_match (title : String) (tags : List String) : Bool :=
  MATCH_HINTS.any (fun k => pyIn k title) ||
  MATCH_HINTS.any (fun k => pyIn k (String.join tags))

/-- `has_shiyuqi` from `s.py`: the subject substring occurs in the
space-joined concatenation of title, space-joined tags, author, desc. -/
def has_shiyuqi (title : String) (tags : List String) (author : String) (desc : String) : Bool :=
  pyIn "石宇奇" (String.intercalate " " [title, String.intercalate " " tags, author, desc])

/-- One result row as built by `parse_results` in `s.py`.  Fields taken
from the response without normalisation keep type `Json` (they may be
non-strings); fields passed through `clean_html` / `join` are strings. -/
structure Row where
  title : String
  bvid : Json
  aid : Json
  url : Json
  author : Json
  pubdate : String
  duration : Json
  play : Json
  danmaku : Json
  tags : String
  desc : String

/-- `d.get(k, default)`. -/
def jget (it : Json) (k : String) (d : Json) : Json := (it.get k).getD d

/-- `d.get(k)` (default `None`). -/
def jgetN (it : Json) (k : String) : Json := (it.get k).getD .null

/-- The body of the `for it in results:` loop of `parse_results`;
a non-dict item raises `AttributeError` on `it.get`. -/
def parseItem (fmt : Int → String) (it : Json) : Except Unit Row :=
  match it with
  | .obj _ =>
      let bvid := pyOr (jgetN it "bvid") (.str "")
      .ok
        { title := clean_html (jget it "title" (.str ""))
          bvid := bvid
          aid := pyOr (jgetN it "aid") (pyOr (jgetN it "id") (.str ""))
          url := pyOr (jgetN it "arcurl")
            (if truthy bvid then .str ("https://www.bilibili.com/video/" ++ pyStr bvid)
             else .str "")
          author := pyOr (jgetN it "author") (pyOr (jgetN it "uname") (.str ""))
          pubdate := to_datetime fmt (jget it "pubdate" (.num 0))
          duration := jget it "duration" (.str "")
          play :=
            match it.get "play" with
            | some v => v
            | none => jget it "playcnt" (.str "")
          danmaku :=
            match it.get "video_review" with
            | some v => v
            | none => jget it "dm" (.str "")
          tags := String.intercalate "|" (ensure_list_tags (jgetN it "tag"))
          desc := clean_html
            (match it.get "description" with
             | some v => v
             | none => jget it "desc" (.str "")) }
  | _ => .error ()

/-- Location of the result list in `parse_results`: `j.get("data") or
j.get("result")`, then `.get("result")` when that is a dict, then the
`isinstance(list)` check; every failure returns the empty list. -/
def locatedResults (j : Json) : List Json :=
  match j with
  | .obj _ =>
      let a := jgetN j "data"
      let data := if truthy a then a else jgetN j "result"
      if !truthy data then []
      else
        let results :=
          match data with
          | .obj _ => jgetN data "result"
          | _ => data
        match results with
        | .arr xs => xs
        | _ => []
  | _ => []

/-- The row-building loop of `parse_results`: stops with the exception of
the first bad item. -/
def parseItems (fmt : Int → String) : List Json → Except Unit (List Row)
  | [] => .ok []
  | it :: rest =>
      match parseItem fmt it with
      | .error e => .error e
      | .ok r => (parseItems fmt rest).map (fun l => r :: l)

/-- `parse_results` from `s.py`. -/
def parse_results (fmt : Int → String) (j : Json) : Except Unit (List Row) :=
  parseItems fmt (locatedResults j)

/-- The tag list recovered in `crawl`:
`r["tags"].split("|") if r["tags"] else []`. -/
def rowTags (r : Row) : List String :=
  if r.tags == "" then [] else r.tags.splitOn "|"

/-- The per-record filter loop of `crawl`.  `has_shiyuqi` joins the author
into a string, so a non-string author raises `TypeError` before any
predicate is decided. -/
def filterRows (hint : Bool) : List Row → Except Unit (List Row)
  | [] => .ok []
  | r :: rest =>
      match r.author with
      | .str a =>
          if !has_shiyuqi r.title (rowTags r) a r.desc then filterRows hint rest
          else if hint && !looks_like_match r.title (rowTags r) then filterRows hint rest
          else (filterRows hint rest).map (fun l => r :: l)
      | _ => .error ()

/-- Hash-key classes of Python values: `True == 1`, `False == 0`, `None`
is its own class, strings are their own class; lists and dicts are
unhashable (inserting such a key raises `TypeError`). -/
inductive HKey where
  | pnone
  | int (n : Int)
  | str (s : String)
deriving DecidableEq

def hashKey : Json → Option HKey
  | .null => some .pnone
  | .bool b => some (.int (if b then 1 else 0))
  | .num n => some (.int n)
  | .str s => some (.str s)
  | .arr _ => none
  | .obj _ => none

/-- `key = r["bvid"] or r["aid"] or r["url"]` in `crawl`. -/
def dedupeKey (r : Row) : Json := pyOr (pyOr r.bvid r.aid) r.url

def keyOf (r : Row) : Option HKey := hashKey (dedupeKey r)

def keyMem (k : HKey) (m : List (HKey × Row)) : Bool :=
  m.any (fun p => decide (p.1 = k))

/-- `uniq[key] = r` on an insertion-ordered dict: overwrite in place when
the key is present, append otherwise. -/
def insertKey (m : List (HKey × Row)) (k : HKey) (r : Row) : List (HKey × Row) :=
  if keyMem k m then m.map (fun p => if p.1 = k then (k, r) else p)
  else m ++ [(k, r)]

/-- The dedupe loop at the end of `crawl`; unhashable keys raise. -/
def dedupFold : List Row → List (HKey × Row) → Except Unit (List (HKey × Row))
  | [], m => .ok m
  | r :: rest, m =>
      match keyOf r with
      | none => .error ()
      | some k => dedupFold rest (insertKey m k r)

/-- `uniq = {}; for r in all_rows: ...; return list(uniq.values())`. -/
def pydedup (rows : List Row) : Except Unit (List Row) :=
  (dedupFold rows []).map (fun m => m.map (fun p => p.2))

def lookupKey (k : HKey) : List (HKey × Row) → Option Row
  | [] => none
  | p :: rest => if p.1 = k then some p.2 else lookupKey k rest

/-- The observable ways the crawl loop stops; `s.py` prints a distinct
diagnostic in each case.  `maxPages` is running off the page bound,
`fetchError` is an exception from `fetch_page`, `apiError c` is a
non-zero top-level `code` (stored after the `-1` defaulting), `empty`
is a page that parsed to no rows. -/
inductive StopReason where
  | maxPages
  | fetchError
  | apiError (c : Json)
  | empty

/-- `j.get("code", -1)` in `crawl`; a non-dict body raises. -/
def getCode (j : Json) : Except Unit Json :=
  match j with
  | .obj _ => .ok (jget j "code" (.num (-1)))
  | _ => .error ()

/-- Python `x == 0` for a decoded-JSON `x` (`False == 0` holds). -/
def isPyZero (c : Json) : Bool :=
  match c with
  | .num n => n == 0
  | .bool b => !b
  | _ => false

/-- `j.get("code") == -412`, the anti-bot sentinel test in `crawl`. -/
def isSentinel412 (c : Json) : Bool :=
  match c with
  | .num n => n == -412
  | _ => false

/-- Whether the `[HINT]` line is printed for a given stop. -/
def hintEmitted : StopReason → Bool
  | .apiError c => isSentinel412 c
  | _ => false

/-- Result of handling one successfully fetched body inside the loop. -/
inductive PageStep where
  | stop (s : StopReason)
  | keep (kept : List Row)

/-- The per-page body handling of `crawl`: code check, parse, emptiness
check, filter. -/
def processBody (fmt : Int → String) (hint : Bool) (j : Json) : Except Unit PageStep :=
  match getCode j with
  | .error e => .error e
  | .ok c =>
      if isPyZero c then
        match parse_results fmt j with
        | .error e => .error e
        | .ok rows =>
            if rows.isEmpty then .ok (.stop .empty)
            else
              match filterRows hint rows with
              | .error e => .error e
              | .ok kept => .ok (.keep kept)
      else .ok (.stop (.apiError c))

/-- The `for page in range(1, max_pages + 1)` loop of `crawl`, over the
list of fetch outcomes for pages 1, 2, ...; `Except.error` as an outcome
is any exception raised by `fetch_page` (caught by the loop's `try`). -/
def crawlList (fmt : Int → String) (hint : Bool) :
    List (Except Unit Json) → List Row → Except Unit (List Row × StopReason)
  | [], acc => .ok (acc, .maxPages)
  | o :: rest, acc =>
      match o with
      | .error _ => .ok (acc, .fetchError)
      | .ok j =>
          match processBody fmt hint j with
          | .error e => .error e
          | .ok (.stop s) => .ok (acc, s)
          | .ok (.keep kept) => crawlList fmt hint rest (acc ++ kept)

/-- `crawl` from `s.py`: run the loop from an empty accumulator, then
deduplicate whatever was collected. -/
def crawl (fmt : Int → String) (hint : Bool) (outcomes : List (Except Unit Json)) :
    Except Unit (List Row × StopReason) :=
  match crawlList fmt hint outcomes [] with
  | .error e => .error e
  | .ok (acc, reason) => (pydedup acc).map (fun out => (out, reason))

/-- Result of one `fetch_page` call. -/
inductive FetchOutcome where
  | success (j : Json)
  | httpError (status : Nat)
  | exhausted (page : Nat)

/-- `status in (412, 429, 418)`. -/
def isRateLimited (st : Nat) : Bool := st == 412 || st == 429 || st == 418

/-- The `for attempt in range(6)` loop of `fetch_page`.  `resp a` is the
status/body of the request issued on attempt `a`; `jit a` is the value of
`random.uniform(0, 0.8)` on that attempt.  The second component is the
list of sleep durations of the rate-limited attempts. -/
def fetchGo (resp : Nat → Nat × Json) (jit : Nat → ℚ) (page : Nat) :
    Nat → Nat → ℚ → FetchOutcome × List ℚ
  | 0, _, _ => (.exhausted page, [])
  | fuel + 1, a, b =>
      if (resp a).1 = 200 then (.success (resp a).2, [])
      else if isRateLimited (resp a).1 then
        let res := fetchGo resp jit page fuel (a + 1) (min (b * 2) 16)
        (res.1, (b + jit a) :: res.2)
      else (.httpError (resp a).1, [])

/-- `fetch_page` from `s.py`: 6 attempts, initial backoff 2.0 s;
`.exhausted page` is the final `RuntimeError` naming the page. -/
def fetch_page (resp : Nat → Nat × Json) (jit : Nat → ℚ) (page : Nat) :
    FetchOutcome × List ℚ :=
  fetchGo resp jit page 6 0 2

/-- How a `fetch_page` outcome appears to the `try` in `crawl`: both the
`RuntimeError` and `raise_for_status` are exceptions. -/
def outcomeToExcept : FetchOutcome → Except Unit Json
  | .success j => .ok j
  | .httpError _ => .error ()
  | .exhausted _ => .error ()

/-- The author string of a row whose `author` field is a string. -/
def authorString (r : Row) : String :=
  match r.author with
  | .str s => s
  | _ => ""

/-- The Filter Stage predicate exactly as the specification states it:
the subject substring occurs in the space-joined concatenation of the
record's title, tags, author and description, AND (topic filtering is
disabled OR some fixed topic keyword occurs in the title or in the
concatenated tag string). -/
def surviveClaim (hint : Bool) (r : Row) : Bool :=
  (pyIn "石宇奇"
    (String.intercalate " "
      [r.title, String.intercalate " " (rowTags r), authorString r, r.desc]))
  && (!hint ||
      (MATCH_HINTS.any (fun k => pyIn k r.title) ||
       MATCH_HINTS.any (fun k => pyIn k (String.join (rowTags r)))))

/-- A fixed instance of the abstract timestamp formatter, for concrete
evaluations. -/
def fmt0 : Int → String := fun _ => ""

theorem isStr_exists {j : Json} (h : j.isStr = true) : ∃ s, j = .str s := by
  cases j <;> simp [Json.isStr] at h ⊢

/-- The record-filtering loop of `crawl` keeps exactly the records
satisfying the two-predicate conjunction, provided every author field is
a string (a non-string author raises instead). -/
theorem filterRows_eq (hint : Bool) (rows : List Row)
    (h : ∀ r ∈ rows, r.author.isStr = true) :
    filterRows hint rows = .ok (rows.filter (surviveClaim hint)) := by
  induction rows with
  | nil => rfl
  | cons r rest ih =>
      obtain ⟨a, ha⟩ := isStr_exists (h r (List.mem_cons_self r rest))
      have hrest := ih (fun x hx => h x (List.mem_cons_of_mem _ hx))
      simp only [filterRows, ha, List.filter_cons, surviveClaim, authorString,
        has_shiyuqi, looks_like_match, hrest]
      cases hs : pyIn "石宇奇"
          (String.intercalate " " [r.title, String.intercalate " " (rowTags r), a, r.desc]) <;>
        cases hl : ((MATCH_HINTS.any fun k => pyIn k r.title) ||
            MATCH_HINTS.any fun k => pyIn k (String.join (rowTags r))) <;>
        cases hint <;>
        simp [hs, hl, hrest, Except.map]

/-- Claim C1 (confirmed): for every parsed record R (with a string author
field, the only case in which the Filter Stage evaluates at all instead of
raising), R survives the Filter Stage if and only if the subject substring
"石宇奇" is present in the space-joined concatenation of R's title, tags,
author and description, AND (topic filtering is disabled OR some keyword
of the fixed topic-hint list occurs in R's title or in R's concatenated
tag string): the filter loop of `crawl` returns exactly the records
satisfying `surviveClaim`. -/
theorem C1_filter_stage (hint : Bool) (rows : List Row)
    (h : ∀ r ∈ rows, r.author.isStr = true) :
    filterRows hint rows = .ok (rows.filter (surviveClaim hint)) :=
  filterRows_eq hint rows h

def sampleRowA : Row :=
  { title := "石宇奇 比赛录像", bvid := .str "BV1xx", aid := .num 111,
    url := .str "https://www.bilibili.com/video/BV1xx", author := .str "羽球频道",
    pubdate := "", duration := .str "", play := .num 3, danmaku := .num 0,
    tags := "羽毛球|石宇奇", desc := "全场集锦" }

def sampleRowB : Row :=
  { title := "无关视频", bvid := .str "BV2yy", aid := .str "", url := .str "",
    author := .str "别人", pubdate := "", duration := .str "", play := .str "",
    danmaku := .str "", tags := "", desc := "" }

theorem C1_filter_stage_w :
    (∀ r ∈ [sampleRowA, sampleRowB], r.author.isStr = true) ∧
    filterRows true [sampleRowA, sampleRowB]
      = .ok ([sampleRowA, sampleRowB].filter (surviveClaim true)) ∧
    [sampleRowA, sampleRowB].filter (surviveClaim true) = [sampleRowA] :=
  ⟨by decide, C1_filter_stage true [sampleRowA, sampleRowB] (by decide), by rfl⟩

theorem isObj_exists {j : Json} (h : j.isObj = true) : ∃ kvs, j = .obj kvs := by
  cases j <;> simp [Json.isObj] at h ⊢

/-- Row building succeeds on every item that is a JSON object, and
produces one row per item. -/
theorem parseItems_total (fmt : Int → String) (l : List Json)
    (h : ∀ it ∈ l, it.isObj = true) :
    ∃ rows, parseItems fmt l = .ok rows ∧ rows.length = l.length := by
  induction l with
  | nil => exact ⟨[], rfl, rfl⟩
  | cons it rest ih =>
      obtain ⟨rows, hr, hl⟩ := ih (fun x hx => h x (List.mem_cons_of_mem _ hx))
      obtain ⟨kvs, rfl⟩ := isObj_exists (h it (List.mem_cons_self it rest))
      cases hp : parseItem fmt (Json.obj kvs) with
      | error e => simp [parseItem] at hp
      | ok r0 =>
          refine ⟨r0 :: rows, ?_, ?_⟩
          · simp [parseItems, hp, hr, Except.map]
          · simp [hl]

/-- A JSON body whose result list contains a non-dict element: the loop
body of `parse_results` calls `.get` on the element and raises
`AttributeError`. -/
def badBody : Json :=
  Json.obj [("data", Json.obj [("result", Json.arr [Json.num 1])])]

/-- Claim C2, counterexample: `parse` does raise on some JSON bodies.
On `{"data": {"result": [1]}}` the element `1` is not a dict, and
`it.get("title", "")` raises `AttributeError` — modelled as
`Except.error`. -/
theorem C2_parse_cex : parse_results fmt0 badBody = .error () := rfl

/-- Claim C2 (amended): for every input JSON body whose located result
collection contains only JSON objects, `parse` never raises — missing or
malformed fields degrade to defaults, a missing or non-list result
collection makes `locatedResults` empty and hence yields the empty record
sequence — and it returns one record per result item. -/
theorem C2_parse_amended (fmt : Int → String) (j : Json)
    (h : ∀ it ∈ locatedResults j, it.isObj = true) :
    ∃ rows, parse_results fmt j = .ok rows ∧ rows.length = (locatedResults j).length := by
  simpa [parse_results] using parseItems_total fmt (locatedResults j) h

/-- A well-formed single-result body: `code` 0 and one dict result item. -/
def okBody : Json :=
  Json.obj [("code", Json.num 0),
    ("data", Json.obj [("result", Json.arr
      [Json.obj [("title", Json.str "石宇奇 比赛"), ("bvid", Json.str "BV1")]])])]

theorem C2_parse_amended_w :
    (∀ it ∈ locatedResults okBody, it.isObj = true) ∧
    ∃ rows, parse_results fmt0 okBody = .ok rows ∧
      rows.length = (locatedResults okBody).length :=
  ⟨by decide, C2_parse_amended fmt0 okBody (by decide)⟩

/-- A stop produced by body handling is an api-code stop or an empty-page
stop, never the loop-bound or fetch-exception stop. -/
theorem processBody_stop_shape (fmt : Int → String) (hint : Bool) (j : Json) (s : StopReason)
    (h : processBody fmt hint j = .ok (.stop s)) :
    s = .empty ∨ ∃ c, s = .apiError c := by
  simp only [processBody] at h
  split at h
  · exact Except.noConfusion h
  · split at h
    · split at h
      · exact Except.noConfusion h
      · split at h
        · cases h; exact Or.inl rfl
        · split at h
          · exact Except.noConfusion h
          · cases h
    · cases h; exact Or.inr ⟨_, rfl⟩

/-- Running the loop over a prefix that completes normally continues into
the suffix with the accumulated rows. -/
theorem crawlList_append (fmt : Int → String) (hint : Bool)
    (xs ys : List (Except Unit Json)) (a acc : List Row)
    (h : crawlList fmt hint xs a = .ok (acc, .maxPages)) :
    crawlList fmt hint (xs ++ ys) a = crawlList fmt hint ys acc := by
  induction xs generalizing a with
  | nil =>
      simp only [crawlList] at h
      cases h
      rfl
  | cons o rest ih =>
      cases o with
      | error e => simp [crawlList] at h
      | ok j =>
          cases hp : processBody fmt hint j with
          | error e => simp [crawlList, hp] at h
          | ok step =>
              cases step with
              | stop s =>
                  simp only [crawlList, hp] at h
                  cases h
                  rcases processBody_stop_shape fmt hint j _ hp with h1 | ⟨c, h1⟩ <;> cases h1
              | keep kept =>
                  simp only [crawlList, hp] at h ⊢
                  simpa using ih _ h

/-- The row properties needed for `crawl` to finish without an exception:
a string author (for the filter's `join`) and a hashable dedupe key. -/
def rowWF (r : Row) : Bool := r.author.isStr && (keyOf r).isSome

def okRows : Except Unit (List Row) → List Row
  | .ok l => l
  | .error _ => []

/-- The body properties needed for `crawl` to finish without an
exception on a successfully fetched page: a dict body (for
`j.get("code", -1)`), dict result items (for `parse_results`), and
well-formed parsed rows. -/
def bodyWF (fmt : Int → String) (j : Json) : Bool :=
  j.isObj && (locatedResults j).all Json.isObj &&
    (okRows (parse_results fmt j)).all rowWF

def outcomeWF (fmt : Int → String) : Except Unit Json → Bool
  | .ok j => bodyWF fmt j
  | .error _ => true

/-- The dedupe loop succeeds whenever every key is hashable. -/
theorem dedupFold_total (rows : List Row) (m : List (HKey × Row))
    (h : ∀ r ∈ rows, (keyOf r).isSome = true) :
    ∃ m2, dedupFold rows m = .ok m2 := by
  induction rows generalizing m with
  | nil => exact ⟨m, rfl⟩
  | cons r rest ih =>
      have hr := h r (List.mem_cons_self r rest)
      cases hk : keyOf r with
      | none => rw [hk] at hr; cases hr
      | some k =>
          obtain ⟨m2, hm2⟩ := ih (insertKey m k r) (fun x hx => h x (List.mem_cons_of_mem _ hx))
          exact ⟨m2, by simp [dedupFold, hk, hm2]⟩

/-- The crawl loop never raises when every successful body is
well-formed, and its accumulated rows stay well-formed. -/
theorem crawlList_total (fmt : Int → String) (hint : Bool)
    (outcomes : List (Except Unit Json)) (acc : List Row)
    (hw : outcomes.all (outcomeWF fmt) = true) (ha : acc.all rowWF = true) :
    ∃ res, crawlList fmt hint outcomes acc = .ok res ∧ res.1.all rowWF = true := by
  induction outcomes generalizing acc with
  | nil => exact ⟨(acc, .maxPages), rfl, ha⟩
  | cons o rest ih =>
      rw [List.all_cons, Bool.and_eq_true] at hw
      obtain ⟨ho, hrest⟩ := hw
      cases o with
      | error e => exact ⟨(acc, .fetchError), rfl, ha⟩
      | ok j =>
          simp only [outcomeWF, bodyWF, Bool.and_eq_true] at ho
          obtain ⟨⟨hobj, hitems⟩, hrows⟩ := ho
          obtain ⟨kvs, rfl⟩ := isObj_exists hobj
          rw [List.all_eq_true] at hitems
          by_cases hz : isPyZero (jget (Json.obj kvs) "code" (.num (-1))) = true
          · obtain ⟨rows, hpr, hlen⟩ := parseItems_total fmt _ hitems
            have hprr : parse_results fmt (Json.obj kvs) = .ok rows := hpr
            have hrowsWF : ∀ r ∈ rows, rowWF r = true := by
              rw [hprr] at hrows
              simpa [okRows, List.all_eq_true] using hrows
            by_cases hemp : rows.isEmpty = true
            · refine ⟨(acc, .empty), ?_, ha⟩
              simp [crawlList, processBody, getCode, hz, hprr, hemp]
            · have hstr : ∀ r ∈ rows, r.author.isStr = true := by
                intro r hr
                have := hrowsWF r hr
                simp only [rowWF, Bool.and_eq_true] at this
                exact this.1
              have hfil := filterRows_eq hint rows hstr
              have hkept : (acc ++ rows.filter (surviveClaim hint)).all rowWF = true := by
                rw [List.all_append, Bool.and_eq_true]
                refine ⟨ha, ?_⟩
                rw [List.all_eq_true]
                exact fun r hr => hrowsWF r (List.mem_of_mem_filter hr)
              obtain ⟨res, hres, hresWF⟩ := ih _ hrest hkept
              refine ⟨res, ?_, hresWF⟩
              simp only [crawlList, processBody, getCode, hz, hprr, hemp]
              simpa [hfil, hemp] using hres
          · refine ⟨(acc, .apiError (jget (Json.obj kvs) "code" (.num (-1)))), ?_, ha⟩
            simp [crawlList, processBody, getCode, hz]

/-- Claim C3, counterexample: `crawl` does raise on some response bodies.
A successful fetch whose body is the JSON array `[]` makes
`j.get("code", -1)` raise `AttributeError` — modelled as `Except.error` —
so the crawl operation is not total over all response bodies. -/
theorem C3_crawl_cex : crawl fmt0 false [Except.ok (Json.arr [])] = .error () := rfl

/-- Claim C3 (amended): for every sequence of fetch outcomes whose
successful response bodies are well-formed (dict body, dict result items,
string authors, hashable dedupe keys), the crawl operation never raises,
and a fetch failure on page N keeps the deduplicated accumulation of the
records filtered from pages 1..N-1: the result after the failure equals
the dedup of exactly the prefix accumulation, for any suffix. -/
theorem C3_crawl_amended (fmt : Int → String) (hint : Bool)
    (outcomes : List (Except Unit Json))
    (hw : outcomes.all (outcomeWF fmt) = true) :
    (∃ p, crawl fmt hint outcomes = .ok p) ∧
    (∀ pfx rest acc, outcomes = pfx ++ Except.error () :: rest →
      crawlList fmt hint pfx [] = .ok (acc, .maxPages) →
      crawl fmt hint outcomes = (pydedup acc).map (fun out => (out, StopReason.fetchError))) := by
  constructor
  · obtain ⟨res, hres, hresWF⟩ := crawlList_total fmt hint outcomes [] hw rfl
    have hkeys : ∀ r ∈ res.1, (keyOf r).isSome = true := by
      rw [List.all_eq_true] at hresWF
      intro r hr
      have := hresWF r hr
      simp only [rowWF, Bool.and_eq_true] at this
      exact this.2
    obtain ⟨m2, hm2⟩ := dedupFold_total res.1 [] hkeys
    exact ⟨(m2.map (fun p => p.2), res.2), by
      simp [crawl, hres, pydedup, hm2, Except.map]⟩
  · intro pfx rest acc houtcomes hpfx
    subst houtcomes
    have := crawlList_append fmt hint pfx (Except.error () :: rest) [] acc hpfx
    simp only [crawl, this, crawlList]

theorem C3_crawl_amended_w :
    ([Except.ok okBody, Except.error ()].all (outcomeWF fmt0) = true) ∧
    ((∃ p, crawl fmt0 true [Except.ok okBody, Except.error ()] = .ok p) ∧
     (∀ pfx rest acc, [Except.ok okBody, Except.error ()] = pfx ++ Except.error () :: rest →
        crawlList fmt0 true pfx [] = .ok (acc, .maxPages) →
        crawl fmt0 true [Except.ok okBody, Except.error ()]
          = (pydedup acc).map (fun out => (out, StopReason.fetchError)))) :=
  ⟨by decide, C3_crawl_amended fmt0 true [Except.ok okBody, Except.error ()] (by decide)⟩

/-- `a` if present, else `b` (first-some choice). -/
def optOr {α : Type _} (a b : Option α) : Option α :=
  match a with
  | some v => some v
  | none => b

theorem optOr_none_right {α : Type _} (a : Option α) : optOr a none = a := by
  cases a <;> rfl

theorem optOr_some_left {α : Type _} (x : α) (b : Option α) : optOr (some x) b = some x := rfl

theorem optOr_snoc {α : Type _} (a c : Option α) (x : α) :
    optOr (optOr a (some x)) c = optOr a (some x) := by
  cases a <;> rfl

theorem lastOpt_cons {α : Type _} (a : α) (l : List α) :
    (a :: l).getLast? = optOr l.getLast? (some a) := by
  cases l with
  | nil => rfl
  | cons b bs =>
      rw [List.getLast?_cons_cons]
      rcases h : (b :: bs).getLast? with _ | v
      · simp at h
      · rfl

theorem lookupKey_mapRepl (k k0 : HKey) (r : Row) (m : List (HKey × Row)) :
    lookupKey k (m.map (fun p => if p.1 = k0 then (k0, r) else p)) =
      if k = k0 then (if keyMem k0 m then some r else none) else lookupKey k m := by
  induction m with
  | nil => by_cases hk : k = k0 <;> simp [lookupKey, keyMem, hk]
  | cons p rest ih =>
      by_cases hp : p.1 = k0 <;> by_cases hk : k = k0 <;>
        by_cases hpk : p.1 = k <;>
        simp_all [lookupKey, keyMem, List.any_cons] <;>
        (try (rw [decide_eq_false hp, Bool.false_or]))

theorem lookupKey_append_single (k k0 : HKey) (r : Row) (m : List (HKey × Row)) :
    lookupKey k (m ++ [(k0, r)]) =
      optOr (lookupKey k m) (if k0 = k then some r else none) := by
  induction m with
  | nil => by_cases hk : k0 = k <;> simp [lookupKey, hk, optOr]
  | cons p rest ih =>
      by_cases hp : p.1 = k <;> simp [lookupKey, hp, ih, optOr]

theorem keyMem_false_lookup (k : HKey) (m : List (HKey × Row))
    (h : keyMem k m = false) : lookupKey k m = none := by
  induction m with
  | nil => rfl
  | cons p rest ih =>
      simp only [keyMem, List.any_cons, Bool.or_eq_false_iff] at h
      have hp : ¬p.1 = k := by simpa using h.1
      simp only [lookupKey, if_neg hp]
      exact ih (by simpa [keyMem] using h.2)

theorem lookup_insertKey (k2 k : HKey) (r : Row) (m : List (HKey × Row)) :
    lookupKey k2 (insertKey m k r) = if k2 = k then some r else lookupKey k2 m := by
  unfold insertKey
  by_cases hm : keyMem k m
  · rw [if_pos hm, lookupKey_mapRepl]
    by_cases hk : k2 = k <;> simp [hk, hm]
  · rw [if_neg hm, lookupKey_append_single]
    by_cases hk : k2 = k
    · subst hk
      rw [keyMem_false_lookup k2 m (by simpa using hm)]
      simp [optOr]
    · have : ¬k = k2 := fun he => hk he.symm
      simp [hk, this, optOr_none_right]

/-- The record stored under each key after the dedupe fold is the last
inserted record with that key, falling back to the initial map. -/
theorem dedupFold_lookup (rows : List Row) (m m2 : List (HKey × Row))
    (h : dedupFold rows m = .ok m2) (k : HKey) :
    lookupKey k m2 =
      optOr ((rows.filter (fun r => decide (keyOf r = some k))).getLast?)
        (lookupKey k m) := by
  induction rows generalizing m with
  | nil =>
      cases h
      rfl
  | cons r rest ih =>
      cases hk : keyOf r with
      | none => simp [dedupFold, hk] at h
      | some k0 =>
          simp only [dedupFold, hk] at h
          have := ih (insertKey m k0 r) h
          rw [this, lookup_insertKey]
          by_cases hkk : k = k0
          · subst hkk
            rw [List.filter_cons_of_pos (by simp [hk]), lastOpt_cons]
            rw [if_pos rfl, optOr_snoc]
          · rw [List.filter_cons_of_neg (by simp [hk]; exact fun he => hkk he.symm)]
            rw [if_neg hkk]

def keysOf (m : List (HKey × Row)) : List HKey := m.map (fun p => p.1)

theorem keyMem_iff (k : HKey) (m : List (HKey × Row)) :
    keyMem k m = true ↔ k ∈ keysOf m := by
  simp only [keyMem, keysOf, List.any_eq_true, List.mem_map, decide_eq_true_eq]

theorem keys_mapRepl (m : List (HKey × Row)) (k : HKey) (r : Row) :
    (m.map (fun p => if p.1 = k then (k, r) else p)).map (fun p => p.1) =
      m.map (fun p => p.1) := by
  induction m with
  | nil => rfl
  | cons p rest ih =>
      by_cases hp : p.1 = k <;> simp [hp, ih]

theorem keysOf_insertKey (m : List (HKey × Row)) (k : HKey) (r : Row) :
    keysOf (insertKey m k r) =
      if keyMem k m then keysOf m else keysOf m ++ [k] := by
  unfold insertKey
  by_cases hm : keyMem k m
  · rw [if_pos hm, if_pos hm]
    exact keys_mapRepl m k r
  · rw [if_neg hm, if_neg hm]
    simp [keysOf]

/-- The dedupe fold keeps its key list duplicate-free, and the final key
set is the initial key set united with the keys of the inserted rows. -/
theorem dedupFold_nodup (rows : List Row) (m m2 : List (HKey × Row))
    (h : dedupFold rows m = .ok m2) (hnd : (keysOf m).Nodup) :
    (keysOf m2).Nodup ∧
      (keysOf m2).toFinset = (keysOf m).toFinset ∪ (rows.filterMap keyOf).toFinset := by
  induction rows generalizing m with
  | nil =>
      cases h
      simp [hnd]
  | cons r rest ih =>
      cases hk : keyOf r with
      | none => simp [dedupFold, hk] at h
      | some k0 =>
          simp only [dedupFold, hk] at h
          by_cases hm : keyMem k0 m
          · have hnd2 : (keysOf (insertKey m k0 r)).Nodup := by
              rw [keysOf_insertKey, if_pos hm]; exact hnd
            obtain ⟨h1, h2⟩ := ih (insertKey m k0 r) h hnd2
            refine ⟨h1, ?_⟩
            rw [h2, keysOf_insertKey, if_pos hm]
            rw [show List.filterMap keyOf (r :: rest) = k0 :: List.filterMap keyOf rest by
              simp [List.filterMap_cons, hk], List.toFinset_cons]
            rw [Finset.union_insert]
            rw [Finset.insert_eq_self.mpr]
            exact Finset.mem_union_left _ (List.mem_toFinset.mpr ((keyMem_iff k0 m).mp hm))
          · have hk0 : k0 ∉ keysOf m := fun hc => hm ((keyMem_iff k0 m).mpr hc)
            have hnd2 : (keysOf (insertKey m k0 r)).Nodup := by
              rw [keysOf_insertKey, if_neg hm]
              simp [List.nodup_append, hnd, hk0]
            obtain ⟨h1, h2⟩ := ih (insertKey m k0 r) h hnd2
            refine ⟨h1, ?_⟩
            rw [h2, keysOf_insertKey, if_neg hm]
            rw [show List.filterMap keyOf (r :: rest) = k0 :: List.filterMap keyOf rest by
              simp [List.filterMap_cons, hk], List.toFinset_cons]
            rw [List.toFinset_append]
            simp only [List.toFinset_cons, List.toFinset_nil]
            rw [Finset.union_insert]
            ext x
            simp [or_comm, or_assoc, or_left_comm]

/-- Claim C4 (confirmed): inserting the filtered records into the
deduplication map gives, for each dedupe key, the later-inserted (last)
record with that key, and the returned record sequence has exactly one
entry per distinct dedupe key among all inserted records. -/
theorem C4_dedup (rows : List Row)
    (h : rows.all (fun r => (keyOf r).isSome) = true) :
    ∃ m, dedupFold rows [] = .ok m ∧
      pydedup rows = .ok (m.map (fun p => p.2)) ∧
      m.length = (rows.filterMap keyOf).toFinset.card ∧
      ∀ k : HKey, lookupKey k m =
        (rows.filter (fun r => decide (keyOf r = some k))).getLast? := by
  rw [List.all_eq_true] at h
  obtain ⟨m, hm⟩ := dedupFold_total rows [] h
  refine ⟨m, hm, by simp [pydedup, hm, Except.map], ?_, ?_⟩
  · obtain ⟨hnd, hset⟩ := dedupFold_nodup rows [] m hm (by simp [keysOf])
    have hlen : m.length = (keysOf m).length := by simp [keysOf]
    rw [hlen, ← List.toFinset_card_of_nodup hnd, hset]
    simp [keysOf]
  · intro k
    have := dedupFold_lookup rows [] m hm k
    simpa [lookupKey, optOr_none_right] using this

def dupRow1 : Row :=
  { title := "第一场", bvid := .str "BVdup", aid := .str "", url := .str "",
    author := .str "甲", pubdate := "", duration := .str "", play := .str "",
    danmaku := .str "", tags := "", desc := "" }

def dupRow2 : Row :=
  { title := "第二场", bvid := .str "BVdup", aid := .str "", url := .str "",
    author := .str "乙", pubdate := "", duration := .str "", play := .str "",
    danmaku := .str "", tags := "", desc := "" }

theorem C4_dedup_w :
    ([dupRow1, dupRow2].all (fun r => (keyOf r).isSome) = true) ∧
    (∃ m, dedupFold [dupRow1, dupRow2] [] = .ok m ∧
      pydedup [dupRow1, dupRow2] = .ok (m.map (fun p => p.2)) ∧
      m.length = ([dupRow1, dupRow2].filterMap keyOf).toFinset.card ∧
      ∀ k : HKey, lookupKey k m =
        ([dupRow1, dupRow2].filter (fun r => decide (keyOf r = some k))).getLast?) ∧
    pydedup [dupRow1, dupRow2] = .ok [dupRow2] :=
  ⟨by decide, C4_dedup [dupRow1, dupRow2] (by decide), by rfl⟩

/-- A filtered record whose `bvid`, `aid` and `url` are all empty. -/
def emptyIdRow : Row :=
  { title := "石宇奇", bvid := .str "", aid := .str "", url := .str "",
    author := .str "", pubdate := "", duration := .str "", play := .str "",
    danmaku := .str "", tags := "", desc := "" }

/-- Claim C5, counterexample: `uniq[key] = r` is unconditional, so a
record with all three of `bvid`, `aid`, `url` empty IS admitted into the
deduplication map (under the empty-string key) and returned — refuting
"admitted only if at least one of the three is non-empty". -/
theorem C5_admission_cex :
    truthy emptyIdRow.bvid = false ∧ truthy emptyIdRow.aid = false ∧
    truthy emptyIdRow.url = false ∧
    dedupFold [emptyIdRow] [] = .ok [(HKey.str "", emptyIdRow)] ∧
    pydedup [emptyIdRow] = .ok [emptyIdRow] :=
  ⟨rfl, rfl, rfl, rfl, rfl⟩

/-- Claim C5 (amended): the dedupe key is the first truthy (non-empty)
value among `bvid`, `aid`, `url` tried in that priority order, falling
back to `url` when all three are empty; and every record whose key is
hashable is admitted into the deduplication map, whether or not any of
the three fields is non-empty. -/
theorem C5_admission_amended :
    (∀ r : Row, dedupeKey r =
      if truthy r.bvid then r.bvid else if truthy r.aid then r.aid else r.url) ∧
    (∀ rows m2, rows.all (fun r => (keyOf r).isSome) = true →
      dedupFold rows [] = .ok m2 →
      ∀ r ∈ rows, ∀ k, keyOf r = some k → (lookupKey k m2).isSome = true) := by
  constructor
  · intro r
    by_cases tb : truthy r.bvid <;> by_cases ta : truthy r.aid <;>
      simp [dedupeKey, pyOr, tb, ta]
  · intro rows m2 hall hm r hr k hk
    have := dedupFold_lookup rows [] m2 hm k
    rw [lookupKey] at this
    rw [this, optOr_none_right]
    have hmem : r ∈ rows.filter (fun r => decide (keyOf r = some k)) :=
      List.mem_filter.mpr ⟨hr, by simp [hk]⟩
    have hne : rows.filter (fun r => decide (keyOf r = some k)) ≠ [] :=
      List.ne_nil_of_mem hmem
    simpa using List.getLast?_isSome.mpr hne

theorem C5_admission_amended_w :
    dedupeKey emptyIdRow =
      (if truthy emptyIdRow.bvid then emptyIdRow.bvid
       else if truthy emptyIdRow.aid then emptyIdRow.aid else emptyIdRow.url) ∧
    ([emptyIdRow].all (fun r => (keyOf r).isSome) = true) ∧
    (lookupKey (HKey.str "") [(HKey.str "", emptyIdRow)]).isSome = true :=
  ⟨C5_admission_amended.1 emptyIdRow, by decide,
    C5_admission_amended.2 [emptyIdRow] [(HKey.str "", emptyIdRow)] (by decide) rfl
      emptyIdRow (List.mem_cons_self emptyIdRow []) (HKey.str "") rfl⟩

theorem rl_ne_200 {st : Nat} (h : isRateLimited st = true) : ¬st = 200 := by
  intro he
  subst he
  simp [isRateLimited] at h

/-- When every remaining attempt is rate-limited, the attempt loop runs
out of retries. -/
theorem fetchGo_rl (resp : Nat → Nat × Json) (jit : Nat → ℚ) (page : Nat) :
    ∀ n a b, (∀ i, a ≤ i → i < a + n → isRateLimited (resp i).1 = true) →
      (fetchGo resp jit page n a b).1 = .exhausted page := by
  intro n
  induction n with
  | zero => intro a b _; rfl
  | succ n ih =>
      intro a b h
      have ha := h a (le_refl a) (by omega)
      have h200 := rl_ne_200 ha
      simp only [fetchGo, if_neg h200, ha, if_pos]
      exact ih (a + 1) (min (b * 2) 16) (fun i h1 h2 => h i (by omega) (by omega))

/-- Claim C6 (confirmed): if every attempt of a fetch call receives a
rate-limiting HTTP status, the call fails with the exhausted-retries
error naming the page number after exactly its 6 attempts — any response
stream agreeing on those 6 attempts gives the same outcome, i.e. no 7th
request is consulted — and the crawl loop on such a failed fetch stops
with the fetch-error stop (the spec's `StoppedError`). -/
theorem C6_retries (resp : Nat → Nat × Json) (jit : Nat → ℚ) (page : Nat)
    (h : ∀ i, i < 6 → isRateLimited (resp i).1 = true) :
    (fetch_page resp jit page).1 = FetchOutcome.exhausted page ∧
    (∀ resp2 jit2, (∀ i, i < 6 → resp2 i = resp i) →
      (fetch_page resp2 jit2 page).1 = FetchOutcome.exhausted page) ∧
    (∀ fmt hint rest,
      crawl fmt hint (outcomeToExcept (fetch_page resp jit page).1 :: rest)
        = .ok ([], StopReason.fetchError)) := by
  have h1 : (fetch_page resp jit page).1 = .exhausted page :=
    fetchGo_rl resp jit page 6 0 2 (fun i _ hi2 => h i (by omega))
  refine ⟨h1, ?_, ?_⟩
  · intro resp2 jit2 hagree
    exact fetchGo_rl resp2 jit2 page 6 0 2
      (fun i _ hi2 => by rw [hagree i (by omega)]; exact h i (by omega))
  · intro fmt hint rest
    rw [h1]
    rfl

def rlResp : Nat → Nat × Json := fun _ => (429, Json.null)

def jit0 : Nat → ℚ := fun _ => 0

theorem C6_retries_w :
    (∀ i, i < 6 → isRateLimited (rlResp i).1 = true) ∧
    ((fetch_page rlResp jit0 3).1 = FetchOutcome.exhausted 3 ∧
     (∀ resp2 jit2, (∀ i, i < 6 → resp2 i = rlResp i) →
       (fetch_page resp2 jit2 3).1 = FetchOutcome.exhausted 3) ∧
     (∀ fmt hint rest,
       crawl fmt hint (outcomeToExcept (fetch_page rlResp jit0 3).1 :: rest)
         = .ok ([], StopReason.fetchError))) :=
  ⟨by decide, C6_retries rlResp jit0 3 (by decide)⟩

/-- Claim C7 (confirmed): within one fetch call the backoff starts at
2.0 s, each rate-limited attempt sleeps backoff plus its jitter in
[0, 0.8), and the backoff doubles capped at 16.0 s, so the base backoff
values on the (first five) consecutive rate-limited attempts are
2.0, 4.0, 8.0, 16.0, 16.0. -/
theorem C7_backoff (resp : Nat → Nat × Json) (jit : Nat → ℚ) (page : Nat)
    (hrl : ∀ i, i < 5 → isRateLimited (resp i).1 = true)
    (hj : ∀ i, 0 ≤ jit i ∧ jit i < 4 / 5) :
    (fetch_page resp jit page).2.take 5
      = [2 + jit 0, 4 + jit 1, 8 + jit 2, 16 + jit 3, 16 + jit 4] ∧
    ∀ i, i < 5 →
      [(2 : ℚ), 4, 8, 16, 16].getD i 0 ≤ ((fetch_page resp jit page).2.take 5).getD i 0 ∧
      ((fetch_page resp jit page).2.take 5).getD i 0
        < [(2 : ℚ), 4, 8, 16, 16].getD i 0 + 4 / 5 := by
  have h0 := hrl 0 (by omega)
  have h1 := hrl 1 (by omega)
  have h2 := hrl 2 (by omega)
  have h3 := hrl 3 (by omega)
  have h4 := hrl 4 (by omega)
  have n0 := rl_ne_200 h0
  have n1 := rl_ne_200 h1
  have n2 := rl_ne_200 h2
  have n3 := rl_ne_200 h3
  have n4 := rl_ne_200 h4
  have m1 : min ((2 : ℚ) * 2) 16 = 4 := by norm_num
  have m2 : min ((4 : ℚ) * 2) 16 = 8 := by norm_num
  have m3 : min ((8 : ℚ) * 2) 16 = 16 := by norm_num
  have m4 : min ((16 : ℚ) * 2) 16 = 16 := by norm_num
  have hsl : (fetch_page resp jit page).2
      = (2 + jit 0) :: (4 + jit 1) :: (8 + jit 2) :: (16 + jit 3) :: (16 + jit 4)
        :: (fetchGo resp jit page 1 5 16).2 := by
    show (fetchGo resp jit page 6 0 2).2 = _
    rw [show (6 : Nat) = 5 + 1 from rfl, fetchGo]
    simp only [if_neg n0, h0, if_pos, m1]
    rw [show (5 : Nat) = 4 + 1 from rfl, fetchGo]
    simp only [if_neg n1, h1, if_pos, m2]
    rw [show (4 : Nat) = 3 + 1 from rfl, fetchGo]
    simp only [if_neg n2, h2, if_pos, m3]
    rw [show (3 : Nat) = 2 + 1 from rfl, fetchGo]
    simp only [if_neg n3, h3, if_pos, m4]
    rw [show (2 : Nat) = 1 + 1 from rfl, fetchGo]
    simp only [if_neg n4, h4, if_pos, m4]
  have htake : (fetch_page resp jit page).2.take 5
      = [2 + jit 0, 4 + jit 1, 8 + jit 2, 16 + jit 3, 16 + jit 4] := by
    rw [hsl]
    rfl
  refine ⟨htake, ?_⟩
  intro i hi
  rw [htake]
  interval_cases i <;>
    simp only [List.getD, List.get?, Option.getD] <;>
    constructor <;>
    first
      | linarith [(hj 0).1, (hj 0).2]
      | linarith [(hj 1).1, (hj 1).2]
      | linarith [(hj 2).1, (hj 2).2]
      | linarith [(hj 3).1, (hj 3).2]
      | linarith [(hj 4).1, (hj 4).2]

theorem C7_backoff_w :
    (∀ i, i < 5 → isRateLimited (rlResp i).1 = true) ∧
    (∀ i, 0 ≤ jit0 i ∧ jit0 i < 4 / 5) ∧
    ((fetch_page rlResp jit0 9).2.take 5
        = [2 + jit0 0, 4 + jit0 1, 8 + jit0 2, 16 + jit0 3, 16 + jit0 4] ∧
     ∀ i, i < 5 →
       [(2 : ℚ), 4, 8, 16, 16].getD i 0 ≤ ((fetch_page rlResp jit0 9).2.take 5).getD i 0 ∧
       ((fetch_page rlResp jit0 9).2.take 5).getD i 0
         < [(2 : ℚ), 4, 8, 16, 16].getD i 0 + 4 / 5) :=
  ⟨by decide, fun i => by constructor <;> norm_num [jit0],
    C7_backoff rlResp jit0 9 (by decide) (fun i => by constructor <;> norm_num [jit0])⟩

/-- Claim C8 (confirmed): a successfully fetched body carrying a non-zero
top-level code stops the loop at once with the api-error stop (the
spec's `StoppedError`), regardless of the rest of the body and of any
later pages (so the page is never parsed and no further page fetched),
the previously accumulated records are returned unchanged (deduplicated,
as always), and the actionable hint is emitted exactly for the sentinel
code `-412`. -/
theorem C8_nonzero_code (fmt : Int → String) (hint : Bool)
    (pfx rest : List (Except Unit Json)) (acc : List Row) (j c : Json)
    (hpfx : crawlList fmt hint pfx [] = .ok (acc, .maxPages))
    (hc : getCode j = .ok c) (hnz : isPyZero c = false) :
    crawl fmt hint (pfx ++ Except.ok j :: rest)
      = (pydedup acc).map (fun out => (out, StopReason.apiError c)) ∧
    hintEmitted (StopReason.apiError c) = isSentinel412 c ∧
    (c = Json.num (-412) → hintEmitted (StopReason.apiError c) = true) := by
  have happ := crawlList_append fmt hint pfx (Except.ok j :: rest) [] acc hpfx
  have hstep : crawlList fmt hint (Except.ok j :: rest) acc = .ok (acc, .apiError c) := by
    simp [crawlList, processBody, hc, hnz]
  refine ⟨?_, rfl, ?_⟩
  · simp [crawl, happ, hstep]
  · intro hceq
    subst hceq
    rfl

/-- The single row parsed and kept from `okBody`. -/
def okRow : Row :=
  { title := "石宇奇 比赛", bvid := .str "BV1", aid := .str "",
    url := .str "https://www.bilibili.com/video/BV1", author := .str "",
    pubdate := "", duration := .str "", play := .str "", danmaku := .str "",
    tags := "", desc := "" }

def blockedBody : Json := Json.obj [("code", Json.num (-412)), ("message", Json.str "x")]

theorem C8_nonzero_code_w :
    crawlList fmt0 true [Except.ok okBody] [] = .ok ([okRow], .maxPages) ∧
    getCode blockedBody = .ok (Json.num (-412)) ∧
    isPyZero (Json.num (-412)) = false ∧
    (crawl fmt0 true ([Except.ok okBody] ++ Except.ok blockedBody :: [])
       = (pydedup [okRow]).map (fun out => (out, StopReason.apiError (Json.num (-412)))) ∧
     hintEmitted (StopReason.apiError (Json.num (-412))) = isSentinel412 (Json.num (-412)) ∧
     (Json.num (-412) = Json.num (-412) →
       hintEmitted (StopReason.apiError (Json.num (-412))) = true)) :=
  ⟨by rfl, rfl, rfl,
    C8_nonzero_code fmt0 true [Except.ok okBody] [] [okRow] blockedBody
      (Json.num (-412)) (by rfl) rfl rfl⟩

/-- Claim C9 (confirmed): if the page for position N parses to an empty
record sequence (and its code is zero), the loop stops with the
empty-page stop, without consuming any later fetch outcome, and returns
the filtered, deduplicated union of the records of pages 1..N-1. -/
theorem C9_empty_page (fmt : Int → String) (hint : Bool)
    (pfx rest : List (Except Unit Json)) (acc : List Row) (j c : Json)
    (hpfx : crawlList fmt hint pfx [] = .ok (acc, .maxPages))
    (hc : getCode j = .ok c) (hz : isPyZero c = true)
    (hparse : parse_results fmt j = .ok []) :
    crawl fmt hint (pfx ++ Except.ok j :: rest)
      = (pydedup acc).map (fun out => (out, StopReason.empty)) := by
  have happ := crawlList_append fmt hint pfx (Except.ok j :: rest) [] acc hpfx
  have hstep : crawlList fmt hint (Except.ok j :: rest) acc = .ok (acc, .empty) := by
    simp [crawlList, processBody, hc, hz, hparse]
  simp [crawl, happ, hstep]

def emptyBody : Json :=
  Json.obj [("code", Json.num 0), ("data", Json.obj [("result", Json.arr [])])]

theorem C9_empty_page_w :
    crawlList fmt0 true [Except.ok okBody] [] = .ok ([okRow], .maxPages) ∧
    getCode emptyBody = .ok (Json.num 0) ∧
    isPyZero (Json.num 0) = true ∧
    parse_results fmt0 emptyBody = .ok [] ∧
    crawl fmt0 true ([Except.ok okBody] ++ Except.ok emptyBody :: [Except.ok (Json.arr [])])
      = (pydedup [okRow]).map (fun out => (out, StopReason.empty)) :=
  ⟨by rfl, rfl, rfl, rfl,
    C9_empty_page fmt0 true [Except.ok okBody] [Except.ok (Json.arr [])] [okRow]
      emptyBody (Json.num 0) (by rfl) rfl rfl rfl⟩

/-- Claim C10 (confirmed): a successfully fetched dict body with no
top-level `code` field is treated via the `-1` default as a non-zero
status: the loop stops with the api-error stop (the spec's
`StoppedError`) carrying code `-1`, without parsing the page or
consuming later outcomes, returning the records accumulated so far; the
`-412` hint is not emitted. -/
theorem C10_missing_code (fmt : Int → String) (hint : Bool)
    (pfx rest : List (Except Unit Json)) (acc : List Row)
    (kvs : List (String × Json))
    (hpfx : crawlList fmt hint pfx [] = .ok (acc, .maxPages))
    (hnc : lookupField "code" kvs = none) :
    getCode (Json.obj kvs) = .ok (Json.num (-1)) ∧
    crawl fmt hint (pfx ++ Except.ok (Json.obj kvs) :: rest)
      = (pydedup acc).map (fun out => (out, StopReason.apiError (Json.num (-1)))) ∧
    hintEmitted (StopReason.apiError (Json.num (-1))) = false := by
  have hgc : getCode (Json.obj kvs) = .ok (Json.num (-1)) := by
    simp [getCode, jget, Json.get, hnc]
  refine ⟨hgc, ?_, rfl⟩
  have hz : isPyZero (Json.num (-1)) = false := rfl
  have happ := crawlList_append fmt hint pfx
    (Except.ok (Json.obj kvs) :: rest) [] acc hpfx
  have hstep : crawlList fmt hint (Except.ok (Json.obj kvs) :: rest) acc
      = .ok (acc, .apiError (Json.num (-1))) := by
    simp [crawlList, processBody, hgc, hz]
  simp [crawl, happ, hstep]

def noCodeBody : Json := Json.obj [("message", Json.str "no code")]

theorem C10_missing_code_w :
    crawlList fmt0 true [Except.ok okBody] [] = .ok ([okRow], .maxPages) ∧
    lookupField "code" [("message", Json.str "no code")] = none ∧
    (getCode noCodeBody = .ok (Json.num (-1)) ∧
     crawl fmt0 true ([Except.ok okBody] ++ Except.ok noCodeBody :: [Except.ok (Json.arr [])])
       = (pydedup [okRow]).map (fun out => (out, StopReason.apiError (Json.num (-1)))) ∧
     hintEmitted (StopReason.apiError (Json.num (-1))) = false) :=
  ⟨by rfl, rfl,
    C10_missing_code fmt0 true [Except.ok okBody] [Except.ok (Json.arr [])] [okRow]
      [("message", Json.str "no code")] (by rfl) rfl⟩
